import Mathlib

/-!
Verification development for the ARDL (autoregressive distributed lag) module
`statsmodels/tsa/ardl.py`.

The embedding is shallow:
* numeric values are exact integers (`ℤ`); a floating NaN is modelled as
  `Option.none`, so a cell of a design matrix has type `NF := Option ℤ`;
* a 2-d array is a row-major `List (List NF)`; exogenous data is kept
  column-wise (`List (List ℤ)`), which matches how `ardl.py` consumes it
  (one column per variable, per-variable lag expansion);
* Python exceptions are `Except ARDLErr`;
* the numpy aliasing of `ARDL._forecasting_x` (the in-sample shortcut returns
  a *view* of the stored design matrix `self._x`) is modelled explicitly: the
  forecasting matrix carries a `view` flag plus the row offset into `self._x`,
  and `predict` writes the mutated rows back into the model when the flag is
  set, exactly as the in-place numpy writes do;
* Python's negative indexing (`endog[-1]`) and negative slice bounds
  (`x[0:-1]`) are reproduced by `pyGetZ` / `pySlice`.

External collaborators (OLS, the deterministic-process generator, the
index-preparation helpers of the base classes) are not part of the source
file; they enter as parameters or as definitions marked `Modelled from the
spec:`.
-/

/-- Decidable equality for `Except`, used to evaluate concrete runs. -/
instance exceptDecEq {ε α : Type _} [DecidableEq ε] [DecidableEq α] :
    DecidableEq (Except ε α) := fun a b =>
  match a, b with
  | .ok x, .ok y =>
    match decEq x y with
    | isTrue h => isTrue (by rw [h])
    | isFalse h => isFalse (by intro hc; cases hc; exact h rfl)
  | .error x, .error y =>
    match decEq x y with
    | isTrue h => isTrue (by rw [h])
    | isFalse h => isFalse (by intro hc; cases hc; exact h rfl)
  | .ok _, .error _ => isFalse (by intro hc; cases hc)
  | .error _, .ok _ => isFalse (by intro hc; cases hc)

/-- A numeric cell: `none` models IEEE NaN, `some z` a finite value. -/
abbrev NF := Option ℤ

/-- NaN-propagating addition, as IEEE addition behaves on NaN. -/
def nfAdd : NF → NF → NF
  | some a, some b => some (a + b)
  | _, _ => none

/-- NaN-propagating multiplication, as IEEE multiplication behaves on NaN. -/
def nfMul : NF → NF → NF
  | some a, some b => some (a * b)
  | _, _ => none

/-- Dot product of a design-matrix row with the (finite) parameter vector:
`np.dot(x[i], params)`.  Any NaN cell poisons the result. -/
def rowDot (row : List NF) (params : List ℤ) : NF :=
  (List.zipWith nfMul row (params.map some)).foldl nfAdd (some 0)

/-- Python indexing `l[i]` for `i : ℤ`: negative indices count from the end;
an index out of `[-len, len)` raises `IndexError`, modelled here as `none`
(no theorem below relies on the out-of-range case). -/
def pyGetZ (l : List ℤ) (i : ℤ) : NF :=
  if 0 ≤ i then l[i.toNat]?
  else if -(l.length : ℤ) ≤ i then l[(l.length : ℤ) + i |>.toNat]?
  else none

/-- Python slice `l[a:b]` with a non-negative start `a` and a possibly
negative stop `b` (a negative stop counts from the end, as in
`self._x[adjusted_start : end + 1 - self._hold_back]`). -/
def pySlice (l : List α) (a : ℕ) (b : ℤ) : List α :=
  let stop : ℤ := if b < 0 then max ((l.length : ℤ) + b) 0 else min b (l.length : ℤ)
  (l.take stop.toNat).drop a

/-- Minimum of a list of naturals, `min(seq)` on a nonempty Python sequence
(the `[]` case is a sentinel; callers guard nonemptiness). -/
def minList : List ℕ → ℕ
  | [] => 0
  | a :: t => t.foldl min a

/-- Maximum of a list of naturals with 0 for the empty list
(`max(lags) if lags else 0`). -/
def maxList : List ℕ → ℕ
  | [] => 0
  | a :: t => t.foldl max a

/-- Byte-wise string comparison, Python's `<=` on strings (used by
`sorted(...)` in the order-dictionary error message). -/
def strLeChars : List Char → List Char → Bool
  | [], _ => true
  | _ :: _, [] => false
  | c :: cs, d :: ds =>
    if c.val < d.val then true
    else if d.val < c.val then false
    else strLeChars cs ds

/-- String comparison on the character data. -/
def strLeB (a b : String) : Bool := strLeChars a.data b.data

/-- Insertion into a sorted list of strings. -/
def strInsert (a : String) : List String → List String
  | [] => [a]
  | b :: bs => if strLeB a b then a :: b :: bs else b :: strInsert a bs

/-- `sorted(...)` for lists of strings (insertion sort; Python's sort is a
stable comparison sort, and the result on distinct keys is the same). -/
def strSort (l : List String) : List String := l.foldr strInsert []

/-- Errors raised by the ARDL core (`ValueError`/`TypeError` sites of
`ardl.py`, one constructor per distinct message). -/
inductive ARDLErr where
  /-- integer orders must be at least `int(causal)` (`_check_order`). -/
  | intOrderTooSmall (causal : Bool)
  /-- sequence orders must contain distinct non-negative values
  (`_check_order`; also covers Python's `min([])` failure on an empty
  sequence, which `_check_order` hits before any further test). -/
  | seqNotDistinctNonneg
  /-- `min()` of an empty sequence (`_check_order` on an empty list). -/
  | minEmptySeq
  /-- sequence orders must be strictly positive when causal (`_check_order`). -/
  | seqNotCausal
  /-- order dictionary contains keys not in exog (`_format_order`);
  the payload is the sorted list of offending keys from the message. -/
  | extraKeys (ks : List String)
  /-- exog is None but a non-trivial order was given (`array_like` failure in
  `_format_order`). -/
  | exogMissing
  /-- hold_back must be >= the maximum lag (`_initialize_model`). -/
  | holdBackTooSmall
  /-- more regressors than estimation sample (`_initialize_model`). -/
  | tooManyRegressors (k n : ℕ)
  /-- `check_exog` shape failure inside `predict`. -/
  | badShape (name : String)
  /-- exog_oos must be provided for out-of-sample forecasts (`predict`). -/
  | exogOosRequired
  /-- exog_oos has too few observations (`predict`). -/
  | exogOosTooShort
  /-- fixed_oos must be provided for out-of-sample forecasts (`predict`). -/
  | fixedOosRequired
  /-- fixed_oos has too few observations (`predict`). -/
  | fixedOosTooShort
  deriving DecidableEq

/-- A per-variable lag-order request, the `None | int | Sequence[int]` values
accepted by `_check_order` (`_ARDLOrder` without the mapping form). -/
inductive OrderSpec where
  | noneSpec
  | intSpec (k : ℤ)
  | seqSpec (l : List ℤ)
  deriving DecidableEq

/-- The full order argument of `ARDL.__init__`: absent, integer, sequence,
or mapping from variable name to `OrderSpec`. -/
inductive ARDLOrder where
  | noneOrder
  | intOrder (k : ℤ)
  | seqOrder (l : List ℤ)
  | mapOrder (m : List (String × OrderSpec))
  deriving DecidableEq

/-- `_check_order(order, causal)`: validates one per-variable order.
Sequence entries are integers by typing, so the `TypeError` branch cannot
fire; the remaining checks mirror the source line by line. -/
def check_order : OrderSpec → Bool → Except ARDLErr Unit
  | .noneSpec, _ => .ok ()
  | .intSpec k, causal =>
    if k < (if causal then 1 else 0) then .error (.intOrderTooSmall causal)
    else .ok ()
  | .seqSpec l, causal =>
    if ¬ l.Nodup then .error .seqNotDistinctNonneg
    else
      match l.min? with
      | none => .error .minEmptySeq
      | some m =>
        if m < 0 then .error .seqNotDistinctNonneg
        else if causal ∧ m < 1 then .error .seqNotCausal
        else .ok ()

/-- `int(causal)`. -/
def causalInt (causal : Bool) : ℕ := if causal then 1 else 0

/-- Expansion of an accepted integer order `k`:
`list(range(int(causal), k + 1))`. -/
def expandIntOrder (causal : Bool) (k : ℤ) : List ℕ :=
  List.range' (causalInt causal) (k.toNat + 1 - causalInt causal)

/-- Final form of one accepted order value (`final_order` loop of
`_format_order`): `None` is dropped by the caller, an integer expands to
`range(int(causal), k + 1)`, a sequence is used verbatim. -/
def finalizeSpec (causal : Bool) : OrderSpec → Option (List ℕ)
  | .noneSpec => none
  | .intSpec k => some (expandIntOrder causal k)
  | .seqSpec l => some (l.map Int.toNat)

/-- Monadic loop `for key in exog_order: _check_order(exog_order[key], causal)`. -/
def checkAllOrders (causal : Bool) : List (String × OrderSpec) → Except ARDLErr Unit
  | [] => .ok ()
  | kv :: rest =>
    match check_order kv.2 causal with
    | .error e => .error e
    | .ok _ => checkAllOrders causal rest

/-- The `final_order` accumulation loop of `_format_order`. -/
def buildFinalOrder (causal : Bool) : List (String × OrderSpec) → List (String × List ℕ)
  | [] => []
  | kv :: rest =>
    match finalizeSpec causal kv.2 with
    | none => buildFinalOrder causal rest
    | some lags => (kv.1, lags) :: buildFinalOrder causal rest

/-- `_format_order(exog, order, causal)`.

`keys` is `None` when no exog was passed, else the list of column names (the
DataFrame branch of the source; the ndarray branch differs only in using
positional keys).  Returns the final order dictionary (an association list in
iteration order) together with the flag of the non-fatal
`SpecificationWarning` raised for variables missing from a mapping order. -/
def format_order (keys : Option (List String)) (order : ARDLOrder) (causal : Bool) :
    Except ARDLErr (List (String × List ℕ) × Bool) :=
  match keys with
  | none =>
    if order = .intOrder 0 ∨ order = .noneOrder then .ok ([], false)
    else .error .exogMissing
  | some ks =>
    match order with
    | .noneOrder =>
      .ok (buildFinalOrder causal (ks.map (fun k => (k, OrderSpec.noneSpec))), false)
    | .mapOrder m =>
      if (m.map Prod.fst).filter (fun k => ¬ k ∈ ks) ≠ [] then
        .error (.extraKeys (strSort ((m.map Prod.fst).filter (fun k => ¬ k ∈ ks))))
      else
        match checkAllOrders causal m with
        | .error e => .error e
        | .ok _ =>
          .ok (buildFinalOrder causal m,
               ks.filter (fun k => ¬ k ∈ m.map Prod.fst) ≠ [])
    | .intOrder k =>
      match check_order (.intSpec k) causal with
      | .error e => .error e
      | .ok _ =>
        .ok (buildFinalOrder causal (ks.map (fun key => (key, OrderSpec.intSpec k))), false)
    | .seqOrder l =>
      match check_order (.seqSpec l) causal with
      | .error e => .error e
      | .ok _ =>
        .ok (buildFinalOrder causal (ks.map (fun key => (key, OrderSpec.seqSpec l))), false)

/-- The `lags` argument of the model: `None`, an integer `p` (expanding to
`range(1, p + 1)` in `_initialize_model`), or an explicit list (already
validated by the `AutoReg` base constructor, hence `List ℕ`). -/
inductive LagSpec where
  | noneLags
  | intLags (k : ℕ)
  | seqLags (l : List ℕ)
  deriving DecidableEq

/-- One cell of a lag matrix: `lagmat` pads the first `lag` rows of the
`lag`-th lag column with zeros, so row `t` holds `col[t - lag]` when
`lag ≤ t` and `0` otherwise. -/
def lagCellL (col : List NF) (t lag : ℕ) : NF :=
  if lag ≤ t then col.getD (t - lag) none else some 0

/-- Row `t` of the horizontal concatenation of the per-variable exogenous
lag blocks (`_format_exog` output, iterated in order-dictionary order). -/
def exogBlockRow (names : List String) (colsNF : List (List NF))
    (ord : List (String × List ℕ)) (t : ℕ) : List NF :=
  ord.flatMap (fun kv =>
    kv.2.map (fun lag =>
      lagCellL (colsNF.getD (names.findIdx (fun s => s == kv.1)) []) t lag))

/-- Row `t` of the untrimmed design matrix: deterministic block, endogenous
lags, exogenous lag blocks, fixed regressors, in that fixed order
(`np.column_stack(x)` in `_initialize_model`). -/
def designRowU (detRows : List (List NF)) (lags : List ℕ) (endogCol : List NF)
    (exogNames : List String) (exogColsNF : List (List NF))
    (ord : List (String × List ℕ)) (fixedRowsNF : List (List NF)) (t : ℕ) : List NF :=
  detRows.getD t [] ++ lags.map (fun lag => lagCellL endogCol t lag)
    ++ exogBlockRow exogNames exogColsNF ord t ++ fixedRowsNF.getD t []

/-- The untrimmed in-sample design matrix built at construction time
(all blocks are finite data, so every cell is `some _` or a zero pad). -/
def assembleX (detIn : List (List ℤ)) (lags : List ℕ) (endog : List ℤ)
    (exogNames : List String) (exogCols : List (List ℤ))
    (ord : List (String × List ℕ)) (fixedRows : List (List ℤ)) : List (List NF) :=
  (List.range endog.length).map (fun t =>
    designRowU (detIn.map (List.map some)) lags (endog.map some)
      exogNames (exogCols.map (List.map some)) ord (fixedRows.map (List.map some)) t)

/-- Total number of columns of the design matrix
(`self._x.shape[1]`: deterministics + endog lags + exog lags + fixed). -/
def orderWidth (ord : List (String × List ℕ)) : ℕ :=
  (ord.map (fun kv => kv.2.length)).sum

/-- The column names `self._exog_names` assembled in `_initialize_model`. -/
def mkParamNames (detNames : List String) (endogName : String) (lags : List ℕ)
    (ord : List (String × List ℕ)) (fixedNames : List String) : List String :=
  detNames ++ lags.map (fun i => endogName ++ ".L" ++ toString i)
    ++ ord.flatMap (fun kv => kv.2.map (fun lag => kv.1 ++ ".L" ++ toString lag))
    ++ fixedNames

/-- The fitted `ARDL` model state (`ModelHandle` of the spec): everything
`predict` and `ardl_select_order` read, including the stored trimmed design
matrix `x` (`self._x`) that the numpy shortcut path aliases. -/
structure ARDLModel where
  endogName : String
  endog : List ℤ
  exogNames : List String
  exogCols : List (List ℤ)
  order : List (String × List ℕ)
  lags : List ℕ
  detNames : List String
  detIn : List (List ℤ)
  detOos : ℕ → List (List ℤ)
  fixedRows : List (List ℤ)
  fixedW : ℕ
  hold_back : ℕ
  causal : Bool
  x : List (List NF)
  y : List ℤ
  paramNames : List String

instance : Inhabited ARDLModel :=
  ⟨{ endogName := "", endog := [], exogNames := [], exogCols := [], order := [],
     lags := [], detNames := [], detIn := [], detOos := fun _ => [],
     fixedRows := [], fixedW := 0, hold_back := 0, causal := true, x := [],
     y := [], paramNames := [] }⟩

/-- `self.endog.shape[0]`. -/
def ARDLModel.nobs (m : ARDLModel) : ℕ := m.endog.length

/-- `self._x.shape[1]` (the column count of the assembled design matrix). -/
def xWidth (m : ARDLModel) : ℕ :=
  m.detNames.length + m.lags.length + orderWidth m.order + m.fixedW

/-- Lag expansion at the top of `_initialize_model`: `None` means no lags,
an integer `p` means `list(range(1, p + 1))`, a sequence is kept as is. -/
def lagsOfSpec : LagSpec → List ℕ
  | .noneLags => []
  | .intLags k => List.range' 1 k
  | .seqLags l => l

/-- Model construction: `ARDL.__init__` (fixed-regressor validation and the
post-`_initialize_model` causality re-derivation) plus `_initialize_model`
(lag expansion, order validation, design-matrix assembly, hold-back default
and trim, degrees-of-freedom check).  Returns the model together with the
`SpecificationWarning` flag from `_format_order`. -/
def mkARDL (endogName : String) (endog : List ℤ) (lagSpec : LagSpec)
    (exog : Option (List (String × List ℤ))) (order : ARDLOrder)
    (detNames : List String) (detIn : List (List ℤ)) (detOos : ℕ → List (List ℤ))
    (fixed : Option (List (List ℤ))) (hold_back : Option ℕ) (causal : Bool) :
    Except ARDLErr (ARDLModel × Bool) :=
  match (match fixed with
         | none => Except.ok (List.replicate endog.length ([] : List ℤ))
         | some f =>
           if f.length = endog.length then Except.ok f
           else Except.error (ARDLErr.badShape "fixed")) with
  | .error e => .error e
  | .ok fixedRows =>
    match format_order (exog.map (·.map Prod.fst)) order causal with
    | .error e => .error e
    | .ok fmt =>
      let fixedW := (fixedRows.headD []).length
      let fixedNames := (List.range fixedW).map (fun i => "z." ++ toString i)
      let lags : List ℕ := lagsOfSpec lagSpec
      let ord := fmt.1
      let maxlag := max (maxList lags) (maxList (ord.map (fun kv => maxList kv.2)))
      let exogNames := (exog.map (·.map Prod.fst)).getD []
      let exogCols := (exog.map (·.map Prod.snd)).getD []
      let xU := assembleX detIn lags endog exogNames exogCols ord fixedRows
      let hb := hold_back.getD maxlag
      if hb < maxlag then .error .holdBackTooSmall
      else
        let xT := xU.drop hb
        let width := detNames.length + lags.length + orderWidth ord + fixedW
        if width > xT.length then .error (.tooManyRegressors width xT.length)
        else
          let causal2 :=
            if ord.isEmpty then true
            else ord.all (fun kv => kv.2.all (fun l => 0 < l))
          .ok ({ endogName := endogName, endog := endog, exogNames := exogNames,
                 exogCols := exogCols, order := ord, lags := lags,
                 detNames := detNames, detIn := detIn, detOos := detOos,
                 fixedRows := fixedRows, fixedW := fixedW, hold_back := hb,
                 causal := causal2, x := xT, y := endog.drop hb,
                 paramNames := mkParamNames detNames endogName lags ord fixedNames },
               fmt.2)

/-- The number of naive one-step forecasts possible without out-of-sample
data (`max_1step` in `ARDL.predict`, lines 686-693); `none` models
`np.inf`. -/
def max1step (m : ARDLModel) : Option ℕ :=
  if m.fixedW ≠ 0 ∨ m.causal = false then some 0
  else
    let base : Option ℕ := if m.lags.isEmpty then none else some (minList m.lags)
    if ¬ m.order.isEmpty then
      let minExog := minList (m.order.map (fun kv => minList kv.2))
      match base with
      | none => some minExog
      | some b => some (min b minExog)
    else base

/-- The result of `ARDL._forecasting_x` together with its numpy aliasing:
`view = true` exactly when the returned array is a slice (a numpy view, not
a copy) of the stored `self._x`, beginning at row `viewOffset`. -/
structure FX where
  x : List (List NF)
  view : Bool
  viewOffset : ℕ

/-- `pad_x`: prepend `pad` NaN rows (`np.vstack([np.full((pad, k), nan), x])`;
for `pad = 0` the array is returned unchanged, preserving aliasing). -/
def padX (x : List (List NF)) (pad width : ℕ) : List (List NF) :=
  List.replicate pad (List.replicate width none) ++ x

/-- The in-sample shortcut branch of `_forecasting_x` (lines 542-549):
slice the stored design matrix.  The slice stop `end + 1 - hold_back` is a
Python expression that may be negative, hence `pySlice`. -/
def fxShortcut (m : ARDLModel) (start end_ : ℕ) : FX :=
  let pad := if m.hold_back ≤ start then 0 else m.hold_back - start
  let adjusted_start := start - m.hold_back
  { x := padX (pySlice m.x adjusted_start ((end_ : ℤ) + 1 - (m.hold_back : ℤ)))
        pad (xWidth m),
    view := m.hold_back ≤ start,
    viewOffset := adjusted_start }

/-- The rebuild branch of `_forecasting_x` (lines 551-578): stack replaced /
extended exogenous columns, extend the deterministic block out of sample,
extend the endogenous series with NaN, rebuild every block, blank the first
`hold_back` rows and slice from `start`. -/
def fxRebuild (m : ARDLModel) (start : ℕ) (num_oos : ℕ)
    (exog : Option (List (List ℤ))) (exog_oos : Option (List (List NF)))
    (fixed : Option (List (List ℤ))) (fixed_oos : Option (List (List ℤ))) :
    List (List NF) :=
  let exogC : List (List NF) :=
    match exog with
    | none => m.exogCols.map (List.map some)
    | some e => e.map (List.map some)
  let exogC : List (List NF) :=
    match exog_oos with
    | none => exogC
    | some eo => List.zipWith (fun c oc => c ++ oc.take num_oos) exogC eo
  let fixedR : List (List NF) :=
    match fixed with
    | none => m.fixedRows.map (List.map some)
    | some f => f.map (List.map some)
  let fixedR : List (List NF) :=
    match fixed_oos with
    | none => fixedR
    | some fo => fixedR ++ (fo.map (List.map some)).take num_oos
  let det : List (List NF) :=
    m.detIn.map (List.map some)
      ++ (if 0 < num_oos then (m.detOos num_oos).map (List.map some) else [])
  let endogExt : List NF := m.endog.map some ++ List.replicate num_oos (none : NF)
  let rowAt : ℕ → List NF := fun t =>
    det.getD t []
      ++ (if m.lags.isEmpty then [] else m.lags.map (fun lag => lagCellL endogExt t lag))
      ++ (if m.order.isEmpty then [] else exogBlockRow m.exogNames exogC m.order t)
      ++ (if m.fixedW ≠ 0 then fixedR.getD t [] else [])
  let xb := (List.range (m.nobs + num_oos)).map (fun t =>
    if t < m.hold_back then List.replicate (xWidth m) none else rowAt t)
  xb.drop start

/-- `ARDL._forecasting_x`: shortcut when the whole request is strictly
in-sample and no replacement data was given, else full rebuild. -/
def forecasting_x (m : ARDLModel) (start end_ num_oos : ℕ)
    (exog : Option (List (List ℤ))) (exog_oos : Option (List (List NF)))
    (fixed : Option (List (List ℤ))) (fixed_oos : Option (List (List ℤ))) : FX :=
  if end_ + 1 < m.nobs ∧ exog = none ∧ fixed = none then
    fxShortcut m start end_
  else
    { x := fxRebuild m start num_oos exog exog_oos fixed fixed_oos,
      view := false, viewOffset := 0 }

/-- `dynamic_start` (lines 728-734): with `dynamic=False` it is
`end + 1 - start`; with an integer offset it is clamped so that no row
before `hold_back` is dynamically forecast.  Modelled from the spec: the
`_parse_dynamic` helper (base-class code outside this file) turns an
integer `dynamic` into "the caller-given offset from `start`", the
identity on integer offsets. -/
def dsOf (dynamic : Option ℕ) (start end_ hb : ℕ) : ℕ :=
  match dynamic with
  | none => end_ + 1 - start
  | some d => if start < hb then max d (hb - start) else d

/-- The inner loop `for j, lag in enumerate(self._lags)` of the dynamic
region (lines 740-747): overwrite the endogenous-lag cells of row `i`,
taking the previously computed forecast when the source index is inside the
dynamic region and the observed `endog` value otherwise.  `c` is the running
column index `offset + j`. -/
def dynWrite (endog : List ℤ) (f : List NF) (start ds i : ℕ) :
    List ℕ → ℕ → List NF → List NF
  | [], _, row => row
  | lag :: rest, c, row =>
    let loc : ℤ := (i : ℤ) - (lag : ℤ)
    let val : NF :=
      if (ds : ℤ) ≤ loc then f.getD loc.toNat none
      else pyGetZ endog ((start : ℤ) + loc)
    dynWrite endog f start ds i rest (c + 1) (row.set c val)

/-- One iteration of the dynamic region: rewrite row `i`, then
`fcasts[i] = x[i] @ params`. -/
def dynStep (m : ARDLModel) (params : List ℤ) (start ds offset : ℕ)
    (st : List (List NF) × List NF) (i : ℕ) : List (List NF) × List NF :=
  let row' := dynWrite m.endog st.2 start ds i m.lags offset (st.1.getD i [])
  (st.1.set i row', st.2.set i (rowDot row' params))

/-- The dynamic region `for i in range(dynamic_start, fcasts.shape[0])`,
processed strictly in increasing time order; `fuel` is the number of rows
left. -/
def dynIter (m : ARDLModel) (params : List ℤ) (start ds offset : ℕ) :
    ℕ → ℕ → List (List NF) × List NF → List (List NF) × List NF
  | _, 0, st => st
  | i, fuel + 1, st =>
    dynIter m params start ds offset (i + 1) fuel (dynStep m params start ds offset st i)

/-- Write the rows of a mutated numpy view back into the parent array:
rows `[off, off + rows.length)` of `orig` are replaced. -/
def spliceRows (orig : List (List NF)) (off : ℕ) (rows : List (List NF)) :
    List (List NF) :=
  orig.take off ++ rows ++ orig.drop (off + rows.length)

/-- The `check_exog` validations of `ARDL.predict` (lines 646-684), reduced
to the shape checks (the DataFrame column-name comparisons are positional
here). -/
def checkShapes (m : ARDLModel) (exog : Option (List (List ℤ)))
    (exog_oos : Option (List (List ℤ))) (fixed : Option (List (List ℤ)))
    (fixed_oos : Option (List (List ℤ))) : Except ARDLErr Unit := do
  (match exog with
   | some e =>
     if e.length ≠ m.exogCols.length ∨ ¬ (e.all (fun c => c.length = m.nobs)) then
       throw (.badShape "exog")
     else pure ()
   | none => pure ())
  (match exog_oos with
   | some e =>
     if e.length ≠ m.exogCols.length then throw (.badShape "exog_oos") else pure ()
   | none => pure ())
  (match fixed with
   | some f =>
     if f.length ≠ m.nobs ∨ ¬ (f.all (fun r => r.length = m.fixedW)) then
       throw (.badShape "fixed")
     else pure ()
   | none => pure ())
  (match fixed_oos with
   | some fo =>
     if ¬ (fo.all (fun r => r.length = m.fixedW)) then
       throw (.badShape "fixed_oos")
     else pure ()
   | none => pure ())

/-- The out-of-sample data requirements of `ARDL.predict` (lines 694-717):
exceeding the one-step bound without the needed exogenous / fixed future
values is fatal.  `exog_oos` is given column-wise, so its row count is the
length of a column. -/
def oosDataCheck (m : ARDLModel) (num_oos : ℕ)
    (exog_oos : Option (List (List ℤ))) (fixed_oos : Option (List (List ℤ))) :
    Except ARDLErr Unit :=
  match max1step m with
  | none => .ok ()
  | some k =>
    if k < num_oos then do
      (if ¬ m.order.isEmpty ∧ exog_oos = none then
        throw .exogOosRequired
      else if ¬ m.order.isEmpty ∧ ((exog_oos.getD []).headD []).length + k < num_oos then
        throw .exogOosTooShort
      else pure ())
      (if m.fixedW ≠ 0 ∧ fixed_oos = none then
        throw .fixedOosRequired
      else if m.fixedW ≠ 0 ∧ (fixed_oos.getD []).length < num_oos then
        throw .fixedOosTooShort
      else pure ())
    else .ok ()

/-- `ARDL.predict` after index preparation: validation, the one-step bound,
NaN-extension of `exog_oos`, design-matrix retrieval, static region, dynamic
region, and - because the shortcut path hands the dynamic loop a numpy view
of `self._x` - the write-back of mutated rows into the model.  Returns the
forecasts and the post-call model state. -/
def predictCore (m : ARDLModel) (params : List ℤ) (start end_ num_oos : ℕ)
    (dynamic : Option ℕ) (exog : Option (List (List ℤ)))
    (exog_oos : Option (List (List ℤ))) (fixed : Option (List (List ℤ)))
    (fixed_oos : Option (List (List ℤ))) :
    Except ARDLErr (List NF × ARDLModel) := do
  let _ ← checkShapes m exog exog_oos fixed fixed_oos
  let _ ← oosDataCheck m num_oos exog_oos fixed_oos
  let exog_oosNF : Option (List (List NF)) :=
    match exog_oos with
    | some e => some (e.map (List.map some))
    | none =>
      if ¬ m.exogCols.isEmpty ∧ 0 < num_oos then
        some (m.exogCols.map (fun _ => List.replicate num_oos (none : NF)))
      else none
  let fx := forecasting_x m start end_ num_oos exog exog_oosNF fixed fixed_oos
  let ds := dsOf dynamic start end_ m.hold_back
  let n := fx.x.length
  let f0 := (List.range n).map (fun i =>
    if i < ds then rowDot (fx.x.getD i []) params else none)
  let st := dynIter m params start ds m.detNames.length ds (n - ds) (fx.x, f0)
  let mOut := if fx.view then { m with x := spliceRows m.x fx.viewOffset st.1 } else m
  .ok (st.2, mOut)

/-- Modelled from the spec: the index bookkeeping of `_prepare_prediction` /
`_get_prediction_index` (base-class code outside this file).  An integer
request `[start, endReq]` splits into the in-sample end `min(endReq, nobs-1)`
and the out-of-sample count `max(endReq - (nobs - 1), 0)`. -/
def preparePrediction (nobs start endReq : ℕ) : ℕ × ℕ × ℕ :=
  (start, min endReq (nobs - 1), endReq + 1 - nobs)

/-- `ARDL.predict` on an integer range request. -/
def predictTop (m : ARDLModel) (params : List ℤ) (start endReq : ℕ)
    (dynamic : Option ℕ) (exog : Option (List (List ℤ)))
    (exog_oos : Option (List (List ℤ))) (fixed : Option (List (List ℤ)))
    (fixed_oos : Option (List (List ℤ))) :
    Except ARDLErr (List NF × ARDLModel) :=
  let p := preparePrediction m.nobs start endReq
  predictCore m params p.1 p.2.1 p.2.2 dynamic exog exog_oos fixed fixed_oos

/-- `ARDLResults.forecast(steps, exog, fixed)` (lines 832-870): forward to
`predict` with `start = nobs`, `end = nobs + steps - 1`, `dynamic=False`,
and the supplied data as the out-of-sample arrays. -/
def forecastRes (m : ARDLModel) (params : List ℤ) (steps : ℕ)
    (exog : Option (List (List ℤ))) (fixed : Option (List (List ℤ))) :
    Except ARDLErr (List NF × ARDLModel) :=
  predictTop m params m.nobs (m.nobs + steps - 1) none none exog none fixed

/-- The winner-selection loop of `ardl_select_order` (lines 1327-1333):
`lowest = np.inf`, then keep the first strictly smaller criterion value.
Criterion values are embedded as exact integers; since no finite value
compares `< np.inf` falsely, the fold with an `Option` accumulator is the
same loop. -/
def selStep {K : Type _} (best : Option (K × ℤ)) (kv : K × ℤ) : Option (K × ℤ) :=
  match best with
  | none => some kv
  | some b => if kv.2 < b.2 then some kv else best

def selectLowestIC {K : Type _} (ics : List (K × ℤ)) : Option (K × ℤ) :=
  ics.foldl selStep none

/-- Forecast vector of a prediction result (empty on error). -/
def outF (r : Except ARDLErr (List NF × ARDLModel)) : List NF :=
  match r with
  | .ok p => p.1
  | .error _ => []

/-- Stored design matrix of the model state after a prediction call
(empty on error). -/
def outX (r : Except ARDLErr (List NF × ARDLModel)) : List (List NF) :=
  match r with
  | .ok p => p.2.x
  | .error _ => []

/-- Whether a prediction call succeeded. -/
def predOk (r : Except ARDLErr (List NF × ARDLModel)) : Bool :=
  match r with
  | .ok _ => true
  | .error _ => false

/-- The model produced by a construction run (default-filled on error). -/
def builtModel (r : Except ARDLErr (ARDLModel × Bool)) : ARDLModel :=
  match r with
  | .ok p => p.1
  | .error _ => default

/-- A purely static forecast following the words of the C10 claim: every
requested value is the dot product of the assembled design row with the
parameters, with no recursive substitution of earlier forecasts into
endogenous-lag cells. -/
def staticNoSubstF (m : ARDLModel) (params : List ℤ) (start end_ num_oos : ℕ)
    (exog : Option (List (List ℤ))) (exog_oos : Option (List (List NF)))
    (fixed : Option (List (List ℤ))) (fixed_oos : Option (List (List ℤ))) :
    List NF :=
  ((forecasting_x m start end_ num_oos exog exog_oos fixed fixed_oos).x).map
    (fun r => rowDot r params)

/-- The minimum included exogenous lag over all included variables
(`min([min(v) for v in self._order.values()])`). -/
def minExogLag (m : ARDLModel) : ℕ :=
  minList (m.order.map (fun kv => minList kv.2))

/-- Whether `num_oos` exceeds the one-step bound (`num_oos > max_1step`,
with `none` as `np.inf`). -/
def boundExceeded (num_oos : ℕ) : Option ℕ → Prop
  | none => False
  | some k => k < num_oos

/-- Scenario for the aliasing analysis: AR(1), no deterministics, no
exogenous data, five observations. -/
def c1mk : Except ARDLErr (ARDLModel × Bool) :=
  mkARDL "y" [1, 1, 1, 1, 1] (.intLags 1) none (.intOrder 0)
    [] (List.replicate 5 []) (fun k => List.replicate k []) none none false

def c1model : ARDLModel := builtModel c1mk

/-- Modelled from the spec: the deterministic-process generator for trend
`c` (an external collaborator, not part of `ardl.py`), whose `in_sample()`
and `out_of_sample(k)` rows are a single constant column named `const`. -/
def constDet (n : ℕ) : List (List ℤ) := List.replicate n [1]

/-- Scenario of the spec's §8 concrete test: 100 observations, one
exogenous variable named `x`, `causal=False`, autoregressive lag 2,
exogenous order 1, constant trend. -/
def c3mk : Except ARDLErr (ARDLModel × Bool) :=
  mkARDL "y" (List.replicate 100 1) (.intLags 2)
    (some [("x", List.replicate 100 2)]) (.intOrder 1)
    ["const"] (constDet 100) (fun k => constDet k) none none false

def c3model : ARDLModel := builtModel c3mk

/-- Scenario for the forecast-substitution analysis: AR(1), no
deterministics, no exogenous data, three observations. -/
def c10mk : Except ARDLErr (ARDLModel × Bool) :=
  mkARDL "y" [1, 1, 1] (.intLags 1) none (.intOrder 0)
    [] (List.replicate 3 []) (fun k => List.replicate k []) none none false

def c10model : ARDLModel := builtModel c10mk

example : check_order (.intSpec 0) true = .error (.intOrderTooSmall true) := rfl

example : check_order (.intSpec 0) false = .ok () := rfl

example : check_order (.seqSpec [1, 1]) false = .error .seqNotDistinctNonneg := rfl

example : check_order (.seqSpec [0, 2]) true = .error .seqNotCausal := by decide

example :
    format_order (some ["a", "b"]) (.intOrder 2) false =
      .ok ([("a", [0, 1, 2]), ("b", [0, 1, 2])], false) := by decide

example :
    format_order (some ["a", "b"]) (.mapOrder [("a", .intSpec 1)]) false =
      .ok ([("a", [0, 1])], true) := by decide

example :
    format_order (some ["a"]) (.mapOrder [("c", .intSpec 1), ("b", .intSpec 1), ("a", .intSpec 1)]) false =
      .error (.extraKeys ["b", "c"]) := by decide


/-- Helper for the selection loop: folding `selStep` from an already-selected
candidate `b` picks, among `b :: ics`, the first entry attaining the smallest
criterion value (the strict `<` update keeps the earlier of tied entries). -/
theorem selStep_fold_first_min {K : Type _} (ics : List (K × ℤ)) (b : K × ℤ) :
    ∃ p l1 l2,
      ics.foldl selStep (some b) = some p ∧
      b :: ics = l1 ++ p :: l2 ∧
      (∀ q ∈ b :: ics, p.2 ≤ q.2) ∧
      (∀ q ∈ l1, p.2 < q.2) := by
  induction ics generalizing b with
  | nil => exact ⟨b, [], [], rfl, rfl, by simp, by simp⟩
  | cons kv rest ih =>
    by_cases hlt : kv.2 < b.2
    · obtain ⟨p, l1, l2, hfold, hsplit, hmin, hstrict⟩ := ih kv
      refine ⟨p, b :: l1, l2, ?_, ?_, ?_, ?_⟩
      · simpa [selStep, hlt] using hfold
      · simp only [List.cons_append]
        exact congrArg (b :: ·) hsplit
      · intro q hq
        rcases List.mem_cons.mp hq with h | h
        · subst h
          have := hmin kv (by simp)
          omega
        · exact hmin q h
      · intro q hq
        rcases List.mem_cons.mp hq with h | h
        · subst h
          have := hmin kv (by simp)
          omega
        · exact hstrict q h
    · obtain ⟨p, l1, l2, hfold, hsplit, hmin, hstrict⟩ := ih b
      have hstep : selStep (some b) kv = some b := by simp [selStep, hlt]
      have hfold2 : (kv :: rest).foldl selStep (some b) = some p := by
        simpa [hstep] using hfold
      cases l1 with
      | nil =>
        simp only [List.nil_append] at hsplit
        injection hsplit with hbp hl2
        refine ⟨p, [], kv :: l2, hfold2, ?_, ?_, by simp⟩
        · rw [← hbp, ← hl2]
          rfl
        · intro q hq
          rcases List.mem_cons.mp hq with h | h
          · subst h
            exact le_of_eq (congrArg Prod.snd hbp.symm)
          · rcases List.mem_cons.mp h with h2 | h2
            · subst h2
              have : p.2 = b.2 := congrArg Prod.snd hbp.symm
              omega
            · exact hmin q (by simp [h2])
      | cons b' l1' =>
        simp only [List.cons_append] at hsplit
        injection hsplit with hbb hrest
        have hpb : p.2 < b.2 := by
          rw [hbb]
          exact hstrict b' (by simp)
        refine ⟨p, b :: kv :: l1', l2, hfold2, ?_, ?_, ?_⟩
        · simp [hrest]
        · intro q hq
          rcases List.mem_cons.mp hq with h | h
          · subst h
            omega
          · rcases List.mem_cons.mp h with h2 | h2
            · subst h2
              omega
            · exact hmin q (by simp [h2])
        · intro q hq
          rcases List.mem_cons.mp hq with h | h
          · subst h
            omega
          · rcases List.mem_cons.mp h with h2 | h2
            · subst h2
              omega
            · exact hstrict q (List.mem_cons_of_mem b' h2)

/-- C5: in every order-selection run, the winner-selection loop of
`ardl_select_order` returns a candidate whose caller-chosen criterion value
is minimal over all enumerated candidates in the criterion table, and among
tied minima the first-encountered candidate in enumeration order wins. -/
theorem selection_minimizes_ic {K : Type _} (ics : List (K × ℤ)) (h : ics ≠ []) :
    ∃ p l1 l2,
      selectLowestIC ics = some p ∧
      ics = l1 ++ p :: l2 ∧
      (∀ q ∈ ics, p.2 ≤ q.2) ∧
      (∀ q ∈ l1, p.2 < q.2) := by
  match ics, h with
  | kv :: rest, _ =>
    obtain ⟨p, l1, l2, hfold, hsplit, hmin, hstrict⟩ := selStep_fold_first_min rest kv
    exact ⟨p, l1, l2, hfold, hsplit, hmin, hstrict⟩

/-- Witness for C5 at a concrete criterion table with a tie: the first of
the two tied minimizers is selected. -/
theorem selection_minimizes_ic_witness :
    ∃ p l1 l2,
      selectLowestIC [("a", (5 : ℤ)), ("b", 3), ("c", 3)] = some p ∧
      [("a", (5 : ℤ)), ("b", 3), ("c", 3)] = l1 ++ p :: l2 ∧
      (∀ q ∈ [("a", (5 : ℤ)), ("b", 3), ("c", 3)], p.2 ≤ q.2) ∧
      (∀ q ∈ l1, p.2 < q.2) :=
  selection_minimizes_ic [("a", (5 : ℤ)), ("b", 3), ("c", 3)] (by decide)

/-- C1 (evaluation of the code at the failing input): calling `predict` with
an in-sample dynamic region on a model whose forecasting matrix comes from
the in-sample shortcut (a numpy view of `self._x`) mutates the model's
stored design matrix: the second stored row changes from the observed lag
value `1` to the substituted forecast `2`, refuting the claimed
immutability.  All other fields are untouched by `predict`. -/
theorem predict_dynamic_mutates_model_x :
    c1mk = .ok (c1model, false) ∧
    c1model.x = [[some 1], [some 1], [some 1], [some 1]] ∧
    predOk (predictCore c1model [2] 1 3 0 (some 0) none none none none) = true ∧
    outX (predictCore c1model [2] 1 3 0 (some 0) none none none none) =
      [[some 1], [some 2], [some 4], [some 1]] ∧
    outX (predictCore c1model [2] 1 3 0 (some 0) none none none none) ≠
      c1model.x :=
  ⟨rfl, rfl, rfl, rfl, by decide⟩

/-- C3: the spec's concrete scenario (100 observations, one exogenous
variable `x`, `causal=False`, autoregressive lag 2, exogenous order 1,
constant trend): the design-matrix columns are exactly
`[const, y.L1, y.L2, x.L0, x.L1]`, `hold_back` defaults to 2, the fitted
parameter count is 5, and a forecast request for 3 out-of-sample steps with
no dynamic flag and no out-of-sample exogenous data fails fatally. -/
theorem concrete_scenario_100obs :
    c3mk = .ok (c3model, false) ∧
    c3model.paramNames = ["const", "y.L1", "y.L2", "x.L0", "x.L1"] ∧
    c3model.hold_back = 2 ∧
    xWidth c3model = 5 ∧
    c3model.paramNames.length = 5 ∧
    predictTop c3model [1, 1, 1, 1, 1] 100 102 none none none none none =
      .error .exogOosRequired :=
  ⟨rfl, by decide, rfl, rfl, rfl, rfl⟩

/-- C10 counterexample: `ARDLResults.forecast` does substitute earlier
out-of-sample forecasts into later endogenous-lag positions.  On an AR(1)
model with coefficient 2 and last observation 1, `forecast(steps=2)`
returns `[2, 4]` - the second step is `2 * 2`, built from the first
forecast - whereas a forecast that never substitutes previous forecasts
into lag cells leaves the second step NaN (the design row still holds the
unknown future endog value). -/
theorem forecast_substitutes_counterexample :
    outF (forecastRes c10model [2] 2 none none) = [some 2, some 4] ∧
    staticNoSubstF c10model [2] 3 2 2 none none none none = [some 2, none] ∧
    outF (forecastRes c10model [2] 2 none none) ≠
      staticNoSubstF c10model [2] 3 2 2 none none none none :=
  ⟨rfl, rfl, by decide⟩

/-- C10 as amended: `forecast(steps=k, exog=e, fixed=f)` returns exactly
`predict(start=nobs, end=nobs+k-1, dynamic=False, exog_oos=e, fixed_oos=f)`;
with `dynamic=False` the dynamic-start offset is `end + 1 - start`, which is
0 for a purely out-of-sample request, so every out-of-sample row is forecast
recursively (earlier out-of-sample forecasts feed later endogenous-lag
positions). -/
theorem forecast_is_predict_oos :
    (∀ (m : ARDLModel) (params : List ℤ) (steps : ℕ)
        (e f : Option (List (List ℤ))),
        forecastRes m params steps e f =
          predictTop m params m.nobs (m.nobs + steps - 1) none none e none f) ∧
    (∀ nobs k hb : ℕ, 0 < nobs → 1 ≤ k →
        dsOf none nobs (min (nobs + k - 1) (nobs - 1)) hb = 0) := by
  constructor
  · intro m params steps e f
    rfl
  · intro nobs k hb h1 h2
    simp only [dsOf]
    omega

/-- Witness for the amended C10: the dynamic-start offset of a pure
out-of-sample `forecast` call is 0 on the concrete three-observation
scenario. -/
theorem forecast_is_predict_oos_witness :
    dsOf none 3 (min (3 + 2 - 1) (3 - 1)) 0 = 0 :=
  forecast_is_predict_oos.2 3 2 0 (by decide) (by decide)

/-- `_check_order` on an integer order, as a closed form: it rejects exactly
the integers below `int(causal)`. -/
theorem check_order_int (k : ℤ) (c : Bool) :
    check_order (.intSpec k) c =
      if k < (causalInt c : ℤ) then .error (.intOrderTooSmall c) else .ok () := by
  cases c <;> simp [check_order, causalInt]

/-- Expanding an integer order for every key. -/
theorem buildFinalOrder_map_int (c : Bool) (k : ℤ) (ks : List String) :
    buildFinalOrder c (ks.map (fun key => (key, OrderSpec.intSpec k))) =
      ks.map (fun key => (key, expandIntOrder c k)) := by
  induction ks with
  | nil => rfl
  | cons a t ih => simp [buildFinalOrder, finalizeSpec, ih]

/-- Membership in the integer-order expansion: exactly the lag indices
between `int(causal)` and `k`. -/
theorem mem_expandIntOrder (c : Bool) (k : ℤ) (j : ℕ) (hk : (causalInt c : ℤ) ≤ k) :
    j ∈ expandIntOrder c k ↔ causalInt c ≤ j ∧ (j : ℤ) ≤ k := by
  simp only [expandIntOrder, List.mem_range'_1]
  omega

/-- C7: for every integer order `k` and causal flag `c`, validation raises
exactly when `k < (c ? 1 : 0)`, and an accepted integer order expands, for
each exogenous variable, to the lag set `{(c ? 1 : 0), ..., k}`. -/
theorem integer_order_rules (k : ℤ) (c : Bool) (keys : List String) :
    (k < (causalInt c : ℤ) →
      format_order (some keys) (.intOrder k) c = .error (.intOrderTooSmall c)) ∧
    ((causalInt c : ℤ) ≤ k →
      format_order (some keys) (.intOrder k) c =
        .ok (keys.map (fun key => (key, expandIntOrder c k)), false) ∧
      ∀ j : ℕ, j ∈ expandIntOrder c k ↔ causalInt c ≤ j ∧ (j : ℤ) ≤ k) := by
  have hco := check_order_int k c
  constructor
  · intro hk
    rw [if_pos hk] at hco
    simp [format_order, hco]
  · intro hk
    rw [if_neg (not_lt.mpr hk)] at hco
    refine ⟨?_, fun j => mem_expandIntOrder c k j hk⟩
    simp [format_order, hco, buildFinalOrder_map_int]

/-- Witness for C7 at `k = 2`, `c = true`, two variables. -/
theorem integer_order_rules_witness :
    format_order (some ["a", "b"]) (.intOrder 2) true =
      .ok (["a", "b"].map (fun key => (key, expandIntOrder true 2)), false) ∧
    ∀ j : ℕ, j ∈ expandIntOrder true 2 ↔ causalInt true ≤ j ∧ (j : ℤ) ≤ 2 :=
  (integer_order_rules 2 true ["a", "b"]).2 (by decide)

/-- The per-value validation loop of `_format_order` succeeds iff every
value passes `_check_order` on its own. -/
theorem checkAllOrders_ok_iff (c : Bool) (m : List (String × OrderSpec)) :
    checkAllOrders c m = .ok () ↔ ∀ kv ∈ m, check_order kv.2 c = .ok () := by
  induction m with
  | nil => simp [checkAllOrders]
  | cons kv rest ih =>
    cases h : check_order kv.2 c with
    | ok u =>
      cases u
      constructor
      · intro hall q hq
        rcases List.mem_cons.mp hq with hh | hh
        · rw [hh, h]
        · refine (ih.mp ?_) q hh
          simpa [checkAllOrders, h] using hall
      · intro hall
        have : checkAllOrders c rest = .ok () := ih.mpr (fun q hq => hall q (by simp [hq]))
        simpa [checkAllOrders, h] using this
    | error e =>
      constructor
      · intro hall
        exact absurd hall (by simp [checkAllOrders, h])
      · intro hall
        have := hall kv (by simp)
        rw [h] at this
        cases this

/-- Only mapping keys can appear in the final order: variables absent from
the order dictionary are excluded from the model. -/
theorem buildFinalOrder_keys_subset (c : Bool) (mp : List (String × OrderSpec)) :
    ∀ kk, kk ∈ (buildFinalOrder c mp).map Prod.fst → kk ∈ mp.map Prod.fst := by
  induction mp with
  | nil => simp [buildFinalOrder]
  | cons kv rest ih =>
    intro kk hk
    cases hfs : finalizeSpec c kv.2 with
    | none =>
      simp only [buildFinalOrder, hfs] at hk
      exact List.mem_cons_of_mem _ (ih kk hk)
    | some lags =>
      simp only [buildFinalOrder, hfs, List.map_cons, List.mem_cons] at hk
      rcases hk with hk | hk
      · simp [hk]
      · exact List.mem_cons_of_mem _ (ih kk hk)

/-- C8: for a mapping-form order spec, keys absent from the data raise a
fatal error enumerating (sorted) the offending keys; otherwise every value
is validated independently by `_check_order` (the run succeeds iff each
value passes, and the first failure's error is raised); on success, the
non-fatal specification warning fires exactly when some data variable is
missing from the mapping, and every such variable is excluded from the
final order. -/
theorem mapping_order_rules (keys : List String) (mp : List (String × OrderSpec)) (c : Bool) :
    ((mp.map Prod.fst).filter (fun k => ¬ k ∈ keys) ≠ [] →
      format_order (some keys) (.mapOrder mp) c =
        .error (.extraKeys (strSort ((mp.map Prod.fst).filter (fun k => ¬ k ∈ keys))))) ∧
    ((mp.map Prod.fst).filter (fun k => ¬ k ∈ keys) = [] →
      ((∀ kv ∈ mp, check_order kv.2 c = .ok ()) →
        format_order (some keys) (.mapOrder mp) c =
          .ok (buildFinalOrder c mp,
               keys.filter (fun k => ¬ k ∈ mp.map Prod.fst) ≠ [])) ∧
      (∀ e, checkAllOrders c mp = .error e →
        format_order (some keys) (.mapOrder mp) c = .error e)) ∧
    (∀ kk, kk ∈ (buildFinalOrder c mp).map Prod.fst → kk ∈ mp.map Prod.fst) := by
  refine ⟨?_, ?_, buildFinalOrder_keys_subset c mp⟩
  · intro h
    simp only [format_order]
    rw [if_pos h]
  · intro h
    constructor
    · intro hall
      have hok : checkAllOrders c mp = .ok () := (checkAllOrders_ok_iff c mp).mpr hall
      simp only [format_order]
      rw [if_neg (fun hne => hne h), hok]
    · intro e he
      simp only [format_order]
      rw [if_neg (fun hne => hne h), he]

/-- Witness for C8: an unknown key `b`/`c` raises the enumerating error; a
mapping that omits data variable `b` succeeds, excludes `b`, and raises the
warning. -/
theorem mapping_order_rules_witness :
    format_order (some ["a"]) (.mapOrder [("c", .intSpec 1), ("b", .intSpec 1)]) false =
      .error (.extraKeys (strSort (([("c", OrderSpec.intSpec 1),
        ("b", OrderSpec.intSpec 1)].map Prod.fst).filter (fun k => ¬ k ∈ ["a"])))) ∧
    format_order (some ["a", "b"]) (.mapOrder [("a", .intSpec 1)]) false =
      .ok (buildFinalOrder false [("a", OrderSpec.intSpec 1)],
           ["a", "b"].filter (fun k => ¬ k ∈ [("a", OrderSpec.intSpec 1)].map Prod.fst) ≠ []) :=
  ⟨(mapping_order_rules ["a"] [("c", .intSpec 1), ("b", .intSpec 1)] false).1 (by decide),
   ((mapping_order_rules ["a", "b"] [("a", .intSpec 1)] false).2.1 (by decide)).1 (by decide)⟩

/-- C2: the one-step forecasting bound of `predict` equals
`min(min ar lag, min exog lag)` for a causal model without fixed regressors
(when both lag families are present), equals zero for any non-causal model
or any model with fixed regressors, and exceeding the bound without
supplying the missing out-of-sample data is a fatal error (`exog_oos`
missing when exogenous lags are in the model, else `fixed_oos` missing when
fixed regressors are). -/
theorem oos_bound_and_errors (m : ARDLModel) :
    (m.causal = true → m.fixedW = 0 → m.lags ≠ [] → m.order ≠ [] →
      max1step m = some (min (minList m.lags) (minExogLag m))) ∧
    ((m.causal = false ∨ m.fixedW ≠ 0) → max1step m = some 0) ∧
    (∀ params start end_ num_oos dynamic,
      boundExceeded num_oos (max1step m) →
      (m.order.isEmpty = false ∨ m.fixedW ≠ 0) →
      predictCore m params start end_ num_oos dynamic none none none none =
        .error (if m.order.isEmpty then .fixedOosRequired else .exogOosRequired)) := by
  refine ⟨?_, ?_, ?_⟩
  · intro hc hf hl ho
    simp [max1step, hc, hf, hl, ho, minExogLag]
  · intro h
    rcases h with h | h
    · simp [max1step, h]
    · simp [max1step, h]
  · intro params start end_ num_oos dynamic hbx hreq
    cases hmax : max1step m with
    | none =>
      rw [hmax] at hbx
      exact absurd hbx (by simp [boundExceeded])
    | some k =>
      rw [hmax] at hbx
      have hk : k < num_oos := hbx
      have hchk : checkShapes m none none none none = .ok () := rfl
      have hoos : oosDataCheck m num_oos none none =
          .error (if m.order.isEmpty then .fixedOosRequired else .exogOosRequired) := by
        cases horder : m.order.isEmpty with
        | false =>
          simp only [oosDataCheck, hmax, horder]
          rw [if_pos hk]
          simp [horder]
          rfl
        | true =>
          have hfw : m.fixedW ≠ 0 := by
            rcases hreq with h | h
            · rw [horder] at h
              cases h
            · exact h
          simp only [oosDataCheck, hmax, horder]
          rw [if_pos hk]
          simp [hfw]
          rfl
      simp only [predictCore, hchk, hoos]
      rfl

/-- A causal model without fixed regressors: AR lags {1,2}, one exogenous
variable at lags {1,2}. -/
def c2aModel : ARDLModel :=
  { endogName := "y", endog := [1, 2, 3, 4], exogNames := ["x"],
    exogCols := [[1, 1, 1, 1]], order := [("x", [1, 2])], lags := [1, 2],
    detNames := [], detIn := List.replicate 4 [], detOos := fun _ => [],
    fixedRows := List.replicate 4 [], fixedW := 0, hold_back := 2,
    causal := true, x := [], y := [], paramNames := [] }

/-- A non-causal model: one exogenous variable at lags {0,1}. -/
def c2bModel : ARDLModel :=
  { endogName := "y", endog := [1, 2, 3, 4], exogNames := ["x"],
    exogCols := [[1, 1, 1, 1]], order := [("x", [0, 1])], lags := [1],
    detNames := [], detIn := List.replicate 4 [], detOos := fun _ => [],
    fixedRows := List.replicate 4 [], fixedW := 0, hold_back := 1,
    causal := false, x := [], y := [], paramNames := [] }

/-- Witness for C2: the bound formula on a causal model, the zero bound on a
non-causal model, and the fatal error when one out-of-sample step is
requested past a zero bound without `exog_oos`. -/
theorem oos_bound_and_errors_witness :
    max1step c2aModel = some (min (minList c2aModel.lags) (minExogLag c2aModel)) ∧
    max1step c2bModel = some 0 ∧
    predictCore c2bModel [] 0 3 1 none none none none none =
      .error (if c2bModel.order.isEmpty then .fixedOosRequired else .exogOosRequired) :=
  ⟨(oos_bound_and_errors c2aModel).1 rfl rfl (by decide) (by decide),
   (oos_bound_and_errors c2bModel).2.1 (Or.inl rfl),
   (oos_bound_and_errors c2bModel).2.2 [] 0 3 1 none
     (by
       have h : max1step c2bModel = some 0 := rfl
       rw [h]
       show 0 < 1
       exact Nat.one_pos)
     (Or.inl rfl)⟩

/-- The fixed-regressor placeholder `np.empty((nobs, 0))` has width 0. -/
theorem headD_replicate_nil (n : ℕ) :
    (List.replicate n ([] : List ℤ)).headD [] = [] := by
  cases n <;> rfl

/-- Variant of `headD_replicate_nil` in `head?.getD` normal form. -/
theorem headD_replicate_nil' (n : ℕ) :
    (List.replicate n ([] : List ℤ)).head?.getD [] = [] := by
  cases n <;> rfl

/-- The untrimmed design matrix has one row per observation. -/
theorem assembleX_length (detIn : List (List ℤ)) (lags : List ℕ) (endog : List ℤ)
    (exogNames : List String) (exogCols : List (List ℤ))
    (ord : List (String × List ℕ)) (fixedRows : List (List ℤ)) :
    (assembleX detIn lags endog exogNames exogCols ord fixedRows).length =
      endog.length := by
  simp [assembleX]

/-- C9: a successfully constructed model has exactly `nobs - hold_back` rows
in both the trimmed design matrix and the trimmed response, no more columns
than rows, and a `hold_back` defaulting to the maximum lag; an explicit
`hold_back` smaller than the maximum lag is a fatal error, and a trimmed
matrix with more columns than rows is a fatal error. -/
theorem design_matrix_trim_and_checks
    (endogName : String) (endog : List ℤ) (lagSpec : LagSpec)
    (exog : Option (List (String × List ℤ))) (order : ARDLOrder)
    (detNames : List String) (detIn : List (List ℤ)) (detOos : ℕ → List (List ℤ))
    (fixed : Option (List (List ℤ))) (hold_back : Option ℕ) (causal : Bool) :
    (∀ m w,
      mkARDL endogName endog lagSpec exog order detNames detIn detOos fixed
          hold_back causal = .ok (m, w) →
      m.x.length = endog.length - m.hold_back ∧
      m.y.length = endog.length - m.hold_back ∧
      xWidth m ≤ m.x.length ∧
      (hold_back = none →
        m.hold_back =
          max (maxList m.lags) (maxList (m.order.map (fun kv => maxList kv.2))))) ∧
    (∀ ord w', fixed = none →
      format_order (exog.map (·.map Prod.fst)) order causal = .ok (ord, w') →
      ∀ hb, hold_back = some hb →
      hb < max (maxList (lagsOfSpec lagSpec)) (maxList (ord.map (fun kv => maxList kv.2))) →
      mkARDL endogName endog lagSpec exog order detNames detIn detOos fixed
          hold_back causal = .error .holdBackTooSmall) ∧
    (∀ ord w', fixed = none →
      format_order (exog.map (·.map Prod.fst)) order causal = .ok (ord, w') →
      max (maxList (lagsOfSpec lagSpec)) (maxList (ord.map (fun kv => maxList kv.2))) ≤
        hold_back.getD
          (max (maxList (lagsOfSpec lagSpec)) (maxList (ord.map (fun kv => maxList kv.2)))) →
      endog.length -
          hold_back.getD
            (max (maxList (lagsOfSpec lagSpec)) (maxList (ord.map (fun kv => maxList kv.2)))) <
        detNames.length + (lagsOfSpec lagSpec).length + orderWidth ord →
      mkARDL endogName endog lagSpec exog order detNames detIn detOos fixed
          hold_back causal =
        .error (.tooManyRegressors
          (detNames.length + (lagsOfSpec lagSpec).length + orderWidth ord)
          (endog.length -
            hold_back.getD
              (max (maxList (lagsOfSpec lagSpec))
                (maxList (ord.map (fun kv => maxList kv.2))))))) := by
  refine ⟨?_, ?_, ?_⟩
  · intro m w h
    simp only [mkARDL] at h
    rcases hfr : (match fixed with
         | none => Except.ok (List.replicate endog.length ([] : List ℤ))
         | some f =>
           if f.length = endog.length then Except.ok f
           else Except.error (ARDLErr.badShape "fixed")) with e | fixedRows
    · rw [hfr] at h
      cases h
    · rw [hfr] at h
      rcases hfmt : format_order (exog.map (·.map Prod.fst)) order causal with e | fmt
      · rw [hfmt] at h
        cases h
      · rw [hfmt] at h
        simp only at h
        split at h
        · cases h
        · split at h
          · cases h
          · rename_i h1 h2
            simp only [Except.ok.injEq, Prod.mk.injEq] at h
            obtain ⟨hm, hw⟩ := h
            subst hm
            refine ⟨?_, ?_, ?_, ?_⟩
            · simp [List.length_drop, assembleX_length]
            · simp [List.length_drop]
            · simp only [not_lt, gt_iff_lt] at h2
              simpa [xWidth, List.length_drop, assembleX_length] using h2
            · intro hnone
              subst hnone
              rfl
  · intro ord w' hfix hfmt hb hhb hlt
    subst hfix
    subst hhb
    simp only [mkARDL, hfmt]
    simp [hlt]
  · intro ord w' hfix hfmt hge hlt
    subst hfix
    simp only [mkARDL, hfmt]
    rw [if_neg (not_lt.mpr hge)]
    rw [if_pos (by
      simp only [headD_replicate_nil, List.length_drop, assembleX_length,
        List.length_nil, gt_iff_lt]
      omega)]
    simp [headD_replicate_nil, headD_replicate_nil', List.length_drop,
      assembleX_length]

/-- Witness for C9: the five-observation AR(1) scenario has 4 = 5 - 1 rows
after trimming and defaults `hold_back` to the maximum lag; an explicit
`hold_back = 0` below the maximum lag 1 is fatal; a two-observation model
with a constant and one lag (2 columns, 1 row) is fatal. -/
theorem design_matrix_trim_and_checks_witness :
    (c1model.x.length = ([1, 1, 1, 1, 1] : List ℤ).length - c1model.hold_back ∧
     c1model.y.length = ([1, 1, 1, 1, 1] : List ℤ).length - c1model.hold_back ∧
     xWidth c1model ≤ c1model.x.length ∧
     ((none : Option ℕ) = none →
       c1model.hold_back =
         max (maxList c1model.lags)
           (maxList (c1model.order.map (fun kv => maxList kv.2))))) ∧
    mkARDL "y" [1, 1, 1] (.intLags 1) none (.intOrder 0) []
        (List.replicate 3 []) (fun k => List.replicate k []) none (some 0) false =
      .error .holdBackTooSmall ∧
    mkARDL "y" [1, 2] (.intLags 1) none (.intOrder 0) ["const"]
        (List.replicate 2 [1]) (fun k => List.replicate k [1]) none none false =
      .error (.tooManyRegressors
        (["const"].length + (lagsOfSpec (.intLags 1)).length + orderWidth [])
        (([1, 2] : List ℤ).length -
          (none : Option ℕ).getD
            (max (maxList (lagsOfSpec (.intLags 1)))
              (maxList (([] : List (String × List ℕ)).map (fun kv => maxList kv.2)))))) :=
  ⟨(design_matrix_trim_and_checks "y" [1, 1, 1, 1, 1] (.intLags 1) none
      (.intOrder 0) [] (List.replicate 5 []) (fun k => List.replicate k [])
      none none false).1 c1model false rfl,
   (design_matrix_trim_and_checks "y" [1, 1, 1] (.intLags 1) none (.intOrder 0)
      [] (List.replicate 3 []) (fun k => List.replicate k []) none (some 0)
      false).2.1 [] false rfl rfl 0 rfl (by decide),
   (design_matrix_trim_and_checks "y" [1, 2] (.intLags 1) none (.intOrder 0)
      ["const"] (List.replicate 2 [1]) (fun k => List.replicate k [1]) none none
      false).2.2 [] false rfl rfl (by decide) (by decide)⟩

/-- `dynWrite` preserves the row width (it only uses `List.set`). -/
theorem dynWrite_length (endog : List ℤ) (f : List NF) (start ds i : ℕ) :
    ∀ (lagsL : List ℕ) (c : ℕ) (row : List NF),
      (dynWrite endog f start ds i lagsL c row).length = row.length := by
  intro lagsL
  induction lagsL with
  | nil => intro c row; rfl
  | cons lag rest ih =>
    intro c row
    simp [dynWrite, ih]

/-- Cells left of the write window are untouched by `dynWrite`. -/
theorem dynWrite_getElem_lt (endog : List ℤ) (f : List NF) (start ds i : ℕ) :
    ∀ (lagsL : List ℕ) (c : ℕ) (row : List NF) (j : ℕ), j < c →
      (dynWrite endog f start ds i lagsL c row)[j]? = row[j]? := by
  intro lagsL
  induction lagsL with
  | nil => intro c row j _; rfl
  | cons lag rest ih =>
    intro c row j hj
    simp only [dynWrite]
    rw [ih (c + 1) _ j (by omega)]
    exact List.getElem?_set_ne (by omega)

/-- The cell written for the `jdx`-th autoregressive lag: the previously
computed forecast when the source index is at or past `dynamic_start`, the
observed `endog` value otherwise (lines 740-747 of `predict`). -/
theorem dynWrite_getElem_cell (endog : List ℤ) (f : List NF) (start ds i : ℕ) :
    ∀ (lagsL : List ℕ) (c : ℕ) (row : List NF) (jdx : ℕ) (lag : ℕ),
      lagsL[jdx]? = some lag → c + jdx < row.length →
      (dynWrite endog f start ds i lagsL c row)[c + jdx]? =
        some (if (ds : ℤ) ≤ (i : ℤ) - (lag : ℤ)
              then f.getD ((i : ℤ) - (lag : ℤ)).toNat none
              else pyGetZ endog ((start : ℤ) + ((i : ℤ) - (lag : ℤ)))) := by
  intro lagsL
  induction lagsL with
  | nil =>
    intro c row jdx lag hjl
    simp at hjl
  | cons lag0 rest ih =>
    intro c row jdx lag hjl hlen
    cases jdx with
    | zero =>
      simp only [List.getElem?_cons_zero, Option.some.injEq] at hjl
      subst hjl
      simp only [dynWrite]
      rw [dynWrite_getElem_lt endog f start ds i rest (c + 1) _ (c + 0) (by omega)]
      simp only [Nat.add_zero]
      exact List.getElem?_set_eq_of_lt _ (by omega)
    | succ j =>
      simp only [List.getElem?_cons_succ] at hjl
      simp only [dynWrite]
      have : c + (j + 1) = (c + 1) + j := by omega
      rw [this]
      exact ih (c + 1) _ j lag hjl (by simp; omega)

/-- `dynWrite` only reads the forecast buffer at the source indices of the
dynamic region, so two buffers agreeing there give the same row. -/
theorem dynWrite_congr (endog : List ℤ) (f1 f2 : List NF) (start ds i : ℕ) :
    ∀ (lagsL : List ℕ) (c : ℕ) (row : List NF),
      (∀ lag ∈ lagsL, (ds : ℤ) ≤ (i : ℤ) - (lag : ℤ) →
        f1.getD ((i : ℤ) - (lag : ℤ)).toNat none =
          f2.getD ((i : ℤ) - (lag : ℤ)).toNat none) →
      dynWrite endog f1 start ds i lagsL c row =
        dynWrite endog f2 start ds i lagsL c row := by
  intro lagsL
  induction lagsL with
  | nil => intro c row _; rfl
  | cons lag rest ih =>
    intro c row hagree
    simp only [dynWrite]
    by_cases hds : (ds : ℤ) ≤ (i : ℤ) - (lag : ℤ)
    · rw [if_pos hds, if_pos hds, hagree lag (by simp) hds,
        ih (c + 1) _ (fun l hl => hagree l (by simp [hl]))]
    · rw [if_neg hds, if_neg hds, ih (c + 1) _ (fun l hl => hagree l (by simp [hl]))]

/-- The dynamic loop preserves the shapes of the design matrix and the
forecast buffer. -/
theorem dynIter_length (m : ARDLModel) (params : List ℤ) (start ds offset : ℕ) :
    ∀ (fuel i : ℕ) (st : List (List NF) × List NF),
      (dynIter m params start ds offset i fuel st).1.length = st.1.length ∧
      (dynIter m params start ds offset i fuel st).2.length = st.2.length := by
  intro fuel
  induction fuel with
  | zero => intro i st; exact ⟨rfl, rfl⟩
  | succ n ih =>
    intro i st
    have := ih (i + 1) (dynStep m params start ds offset st i)
    simpa [dynIter, dynStep] using this

/-- Rows and forecasts strictly before the running index are frozen: the
loop processes indices in increasing order and each step writes only its
own row. -/
theorem dynIter_frozen (m : ARDLModel) (params : List ℤ) (start ds offset : ℕ) :
    ∀ (fuel i : ℕ) (st : List (List NF) × List NF) (j : ℕ), j < i →
      (dynIter m params start ds offset i fuel st).1[j]? = st.1[j]? ∧
      (dynIter m params start ds offset i fuel st).2[j]? = st.2[j]? := by
  intro fuel
  induction fuel with
  | zero => intro i st j _; exact ⟨rfl, rfl⟩
  | succ n ih =>
    intro i st j hj
    have hrec := ih (i + 1) (dynStep m params start ds offset st i) j (by omega)
    simp only [dynIter] at hrec ⊢
    refine ⟨hrec.1.trans ?_, hrec.2.trans ?_⟩
    · exact List.getElem?_set_ne (by omega)
    · exact List.getElem?_set_ne (by omega)

/-- Main invariant of the dynamic region: every processed row `k` of the
final state equals `dynWrite` applied to the *final* forecast buffer (the
substituted forecasts are exactly the previously computed ones, which later
steps never change), and the final forecast at `k` is that row's dot
product with the parameters. -/
theorem dynIter_rows (m : ARDLModel) (params : List ℤ) (start ds offset : ℕ)
    (hlags : ∀ lag ∈ m.lags, 1 ≤ lag) :
    ∀ (fuel i : ℕ) (st : List (List NF) × List NF),
      ds ≤ i → st.2.length = st.1.length →
      ∀ k, i ≤ k → k < i + fuel → k < st.1.length →
      (dynIter m params start ds offset i fuel st).1.getD k [] =
        dynWrite m.endog (dynIter m params start ds offset i fuel st).2
          start ds k m.lags offset (st.1.getD k []) ∧
      (dynIter m params start ds offset i fuel st).2.getD k none =
        rowDot ((dynIter m params start ds offset i fuel st).1.getD k []) params := by
  intro fuel
  induction fuel with
  | zero =>
    intro i st _ _ k hk1 hk2
    omega
  | succ n ih =>
    intro i st hdsi hlen k hk1 hk2 hk3
    by_cases hki : k = i
    · subst hki
      simp only [dynIter]
      have hfr := dynIter_frozen m params start ds offset n (k + 1)
        (dynStep m params start ds offset st k) k (by omega)
      have hstep1 : (dynStep m params start ds offset st k).1[k]? =
          some (dynWrite m.endog st.2 start ds k m.lags offset (st.1.getD k [])) := by
        simp only [dynStep]
        exact List.getElem?_set_eq_of_lt _ hk3
      have hstep2 : (dynStep m params start ds offset st k).2[k]? =
          some (rowDot (dynWrite m.endog st.2 start ds k m.lags offset
            (st.1.getD k [])) params) := by
        simp only [dynStep]
        exact List.getElem?_set_eq_of_lt _ (by omega)
      have hrow : (dynIter m params start ds offset (k + 1) n
          (dynStep m params start ds offset st k)).1.getD k [] =
          dynWrite m.endog st.2 start ds k m.lags offset (st.1.getD k []) := by
        rw [List.getD_eq_getElem?_getD, hfr.1, hstep1]
        rfl
      have hagree : ∀ lag ∈ m.lags, (ds : ℤ) ≤ (k : ℤ) - (lag : ℤ) →
          st.2.getD ((k : ℤ) - (lag : ℤ)).toNat none =
            (dynIter m params start ds offset (k + 1) n
              (dynStep m params start ds offset st k)).2.getD
              ((k : ℤ) - (lag : ℤ)).toNat none := by
        intro lag hlag hds
        have h1 : 1 ≤ lag := hlags lag hlag
        have hp : ((k : ℤ) - (lag : ℤ)).toNat < k := by omega
        have hfrp := dynIter_frozen m params start ds offset n (k + 1)
          (dynStep m params start ds offset st k)
          (((k : ℤ) - (lag : ℤ)).toNat) (by omega)
        rw [List.getD_eq_getElem?_getD, List.getD_eq_getElem?_getD, hfrp.2]
        simp only [dynStep]
        rw [List.getElem?_set_ne (by omega)]
      refine ⟨?_, ?_⟩
      · rw [hrow]
        exact dynWrite_congr m.endog st.2 _ start ds k m.lags offset
          (st.1.getD k []) hagree
      · rw [List.getD_eq_getElem?_getD, hfr.2, hstep2, hrow]
        rfl
    · have hk1' : i + 1 ≤ k := by omega
      have hlen' : (dynStep m params start ds offset st i).2.length =
          (dynStep m params start ds offset st i).1.length := by
        simp [dynStep, hlen]
      have hk3' : k < (dynStep m params start ds offset st i).1.length := by
        simpa [dynStep] using hk3
      have hbase : (dynStep m params start ds offset st i).1.getD k [] =
          st.1.getD k [] := by
        rw [List.getD_eq_getElem?_getD, List.getD_eq_getElem?_getD]
        simp only [dynStep]
        rw [List.getElem?_set_ne (by omega)]
      have := ih (i + 1) (dynStep m params start ds offset st i)
        (by omega) hlen' k hk1' (by omega) hk3'
      simp only [dynIter]
      rw [← hbase]
      exact this

/-- Setting the last cell of a row of width `c + 1`. -/
theorem set_last_eq_take_append (row : List NF) :
    ∀ (c : ℕ) (v : NF), row.length = c + 1 → row.set c v = row.take c ++ [v] := by
  induction row with
  | nil =>
    intro c v h
    cases h
  | cons a t ih =>
    intro c v h
    cases c with
    | zero =>
      have ht : t = [] := List.length_eq_zero.mp (by simpa using h)
      subst ht
      rfl
    | succ c' =>
      simp only [List.set_cons_succ, List.take_succ_cons, List.cons_append]
      rw [ih c' v (by simpa using h)]

/-- Splitting off the last parameter. -/
theorem params_split (p : List ℤ) (c : ℕ) (h : p.length = c + 1) :
    p = p.take c ++ [p.getD c 0] := by
  have hsplit := List.take_append_drop c p
  cases hd : p.drop c with
  | nil =>
    have : p.length - c = 0 := by simpa using congrArg List.length hd
    omega
  | cons x t =>
    have hlt : t = [] := by
      have := congrArg List.length hd
      simp at this
      cases t with
      | nil => rfl
      | cons y u => simp at this; omega
    subst hlt
    have hx : p.getD c 0 = x := by
      have h0 : (p.drop c)[0]? = some x := by rw [hd]; rfl
      rw [List.getElem?_drop, Nat.add_zero] at h0
      rw [List.getD_eq_getElem?_getD, h0]
      rfl
    rw [hx, ← hd, hsplit]

/-- Dot product with the last cell split off. -/
theorem rowDot_snoc (a : List NF) (p : List ℤ) (v : NF) (q : ℤ)
    (h : a.length = p.length) :
    rowDot (a ++ [v]) (p ++ [q]) = nfAdd (rowDot a p) (nfMul v (some q)) := by
  simp only [rowDot, List.map_append]
  rw [List.zipWith_append _ _ _ _ _ (by simpa using h)]
  rw [List.foldl_append]
  rfl

/-- Dot product against a parameter vector one longer than the row prefix:
the last cell contributes `v * p[last]`. -/
theorem rowDot_snoc' (a : List NF) (p : List ℤ) (v : NF)
    (hp : p.length = a.length + 1) :
    rowDot (a ++ [v]) p =
      nfAdd (rowDot a (p.take a.length)) (nfMul v (some (p.getD a.length 0))) := by
  conv_lhs => rw [params_split p a.length hp]
  rw [rowDot_snoc _ _ _ _ (by simp only [List.length_take]; omega)]

/-- C4: in the dynamic region (processed strictly in increasing time order),
every endogenous-lag cell of a processed row whose source offset
`loc = k - lag` is at or after `dynamic_start` holds the previously computed
forecast at that offset, while cells pointing before `dynamic_start` hold
the observed `endog` value (`pyGetZ`, the true data for in-range indices);
each forecast is the rewritten row's dot product with the parameters; and
for an AR(1)-only model the forecasts satisfy the direct recursion
`fcast(k) = deterministic contribution + coefficient * fcast(k - 1)`. -/
theorem dynamic_region_substitution
    (m : ARDLModel) (params : List ℤ) (start ds offset : ℕ)
    (x0 : List (List NF)) (f0 : List NF) (st : List (List NF) × List NF)
    (hst : st = dynIter m params start ds offset ds (x0.length - ds) (x0, f0))
    (hlen : f0.length = x0.length)
    (hlags : ∀ lag ∈ m.lags, 1 ≤ lag) :
    (∀ k, ds ≤ k → k < x0.length →
      st.1.getD k [] =
        dynWrite m.endog st.2 start ds k m.lags offset (x0.getD k []) ∧
      st.2.getD k none = rowDot (st.1.getD k []) params ∧
      (∀ (jdx lag : ℕ), m.lags[jdx]? = some lag →
        offset + jdx < (x0.getD k []).length →
        (st.1.getD k [])[offset + jdx]? =
          some (if (ds : ℤ) ≤ (k : ℤ) - (lag : ℤ)
                then st.2.getD ((k : ℤ) - (lag : ℤ)).toNat none
                else pyGetZ m.endog ((start : ℤ) + ((k : ℤ) - (lag : ℤ)))))) ∧
    (∀ i : ℤ, 0 ≤ i → i.toNat < m.endog.length →
      pyGetZ m.endog i = some (m.endog.getD i.toNat 0)) ∧
    (m.lags = [1] → params.length = offset + 1 →
      ∀ k, ds + 1 ≤ k → k < x0.length → (x0.getD k []).length = offset + 1 →
      st.2.getD k none =
        nfAdd (rowDot ((x0.getD k []).take offset) (params.take offset))
          (nfMul (st.2.getD (k - 1) none) (some (params.getD offset 0)))) := by
  subst hst
  have hrows := fun (k : ℕ) (hk1 : ds ≤ k) (hk3 : k < x0.length) =>
    dynIter_rows m params start ds offset hlags (x0.length - ds) ds (x0, f0)
      (le_refl ds) hlen k hk1 (by omega) hk3
  refine ⟨?_, ?_, ?_⟩
  · intro k hk1 hk3
    obtain ⟨hrow, hfc⟩ := hrows k hk1 hk3
    refine ⟨hrow, hfc, ?_⟩
    intro jdx lag hjl hwid
    rw [hrow]
    exact dynWrite_getElem_cell m.endog _ start ds k m.lags offset
      (x0.getD k []) jdx lag hjl hwid
  · intro i h0 hlt
    simp only [pyGetZ, if_pos h0]
    rw [List.getElem?_eq_getElem hlt, List.getD_eq_getElem?_getD,
      List.getElem?_eq_getElem hlt]
    rfl
  · intro hl1 hplen k hk1 hk3 hwid
    have hrow := (hrows k (by omega) hk3).1
    have hfc := (hrows k (by omega) hk3).2
    have hds : (ds : ℤ) ≤ (k : ℤ) - ((1 : ℕ) : ℤ) := by omega
    have hwrite : dynWrite m.endog
        (dynIter m params start ds offset ds (x0.length - ds) (x0, f0)).2
        start ds k m.lags offset (x0.getD k []) =
        (x0.getD k []).set offset
          ((dynIter m params start ds offset ds (x0.length - ds) (x0, f0)).2.getD
            (k - 1) none) := by
      rw [hl1]
      simp only [dynWrite]
      rw [if_pos hds]
      have htn : (((k : ℤ) - ((1 : ℕ) : ℤ))).toNat = k - 1 := by omega
      rw [htn]
    rw [hfc, hrow, hwrite]
    rw [set_last_eq_take_append _ offset _ hwid]
    have ha : ((x0.getD k []).take offset).length = offset := by
      simp only [List.length_take]
      omega
    rw [rowDot_snoc' _ _ _ (by rw [ha]; exact hplen), ha]

/-- Witness for C4 on the AR(1) scenario: with `dynamic_start = 1`, the
forecast at row 2 equals the deterministic contribution (empty here) plus
the coefficient times the forecast at row 1. -/
theorem dynamic_region_substitution_witness :
    (dynIter c10model [2] 0 1 0 1 2
        ([[some 1], [some 1], [some 1]], [some 5, none, none])).2.getD 2 none =
      nfAdd
        (rowDot ((([[some 1], [some 1], [some 1]] : List (List NF)).getD 2 []).take 0)
          (([2] : List ℤ).take 0))
        (nfMul
          ((dynIter c10model [2] 0 1 0 1 2
              ([[some 1], [some 1], [some 1]], [some 5, none, none])).2.getD (2 - 1) none)
          (some (([2] : List ℤ).getD 0 0))) :=
  (dynamic_region_substitution c10model [2] 0 1 0
      [[some 1], [some 1], [some 1]] [some 5, none, none] _ rfl (by decide)
      (by decide)).2.2 (by decide) (by decide) 2 (by decide) (by decide) (by decide)

/-- A zero-width fixed block contributes nothing to any row. -/
theorem map_getD_nil_of_width0 (rows : List (List ℤ)) :
    ∀ t : ℕ, (∀ r ∈ rows, r.length = 0) →
      (rows.map (List.map some)).getD t [] = ([] : List NF) := by
  induction rows with
  | nil =>
    intro t _
    cases t <;> rfl
  | cons a l ih =>
    intro t h
    cases t with
    | zero =>
      have ha : a = [] := List.length_eq_zero.mp (h a (by simp))
      subst ha
      rfl
    | succ n =>
      simpa using ih n (fun r hr => h r (by simp [hr]))

/-- A row of the untrimmed construction-time design matrix. -/
theorem assembleX_getElem (detIn : List (List ℤ)) (lags : List ℕ) (endog : List ℤ)
    (exogNames : List String) (exogCols : List (List ℤ))
    (ord : List (String × List ℕ)) (fixedRows : List (List ℤ)) (t : ℕ)
    (ht : t < endog.length) :
    (assembleX detIn lags endog exogNames exogCols ord fixedRows)[t]? =
      some (designRowU (detIn.map (List.map some)) lags (endog.map some)
        exogNames (exogCols.map (List.map some)) ord
        (fixedRows.map (List.map some)) t) := by
  simp [assembleX, List.getElem?_map, List.getElem?_range, ht]

/-- With no out-of-sample rows and no replacement data, each rebuilt row at
an in-sample index is either the NaN blank (before `hold_back`) or exactly
the construction-time design row. -/
theorem fxRebuild_insample_getElem (m : ARDLModel) (start j : ℕ)
    (hfw : ∀ r ∈ m.fixedRows, r.length = m.fixedW)
    (hj : start + j < m.nobs) :
    (fxRebuild m start 0 none none none none)[j]? =
      some (if start + j < m.hold_back then List.replicate (xWidth m) none
            else designRowU (m.detIn.map (List.map some)) m.lags
              (m.endog.map some) m.exogNames (m.exogCols.map (List.map some))
              m.order (m.fixedRows.map (List.map some)) (start + j)) := by
  simp only [fxRebuild]
  rw [List.getElem?_drop]
  rw [List.getElem?_map, List.getElem?_range (by simpa using hj)]
  rw [Option.map_some']
  refine congrArg some ?_
  by_cases hhb : start + j < m.hold_back
  · rw [if_pos hhb, if_pos hhb]
  · rw [if_neg hhb, if_neg hhb]
    have hB : (if m.lags.isEmpty then []
        else m.lags.map (fun lag =>
          lagCellL (m.endog.map some ++ List.replicate 0 none) (start + j) lag)) =
        m.lags.map (fun lag => lagCellL (m.endog.map some) (start + j) lag) := by
      cases m.lags <;> simp
    have hC : (if m.order.isEmpty then []
        else exogBlockRow m.exogNames (m.exogCols.map (List.map some)) m.order (start + j)) =
        exogBlockRow m.exogNames (m.exogCols.map (List.map some)) m.order (start + j) := by
      cases m.order <;> simp [exogBlockRow]
    have hD : (if m.fixedW ≠ 0 then
          (m.fixedRows.map (List.map some)).getD (start + j) [] else []) =
        (m.fixedRows.map (List.map some)).getD (start + j) [] := by
      by_cases hw : m.fixedW = 0
      · rw [if_neg (by simp [hw])]
        rw [map_getD_nil_of_width0 m.fixedRows (start + j)
          (fun r hr => by rw [hfw r hr, hw])]
      · rw [if_pos hw]
    simp only [List.replicate_zero, List.append_nil] at hB ⊢
    rw [hB, hC, hD, designRowU]
    simp

/-- C6: for a fully in-sample request with no replacement or out-of-sample
data, the shortcut path (slicing the stored design matrix) and the rebuild
path produce the same row for every requested index, hence the same static
predictions. -/
theorem shortcut_rebuild_agree (m : ARDLModel) (start end_ : ℕ) (params : List ℤ)
    (hx : m.x = (assembleX m.detIn m.lags m.endog m.exogNames m.exogCols
      m.order m.fixedRows).drop m.hold_back)
    (hfw : ∀ r ∈ m.fixedRows, r.length = m.fixedW)
    (hse : start ≤ end_) (hin : end_ < m.nobs) :
    ∀ i, i < end_ + 1 - start →
      (fxShortcut m start end_).x[i]? =
        (fxRebuild m start 0 none none none none)[i]? ∧
      rowDot ((fxShortcut m start end_).x.getD i []) params =
        rowDot ((fxRebuild m start 0 none none none none).getD i []) params := by
  have hmxlen : m.x.length = m.nobs - m.hold_back := by
    rw [hx, List.length_drop, assembleX_length]
    rfl
  have hslice : ∀ (adj j : ℕ), m.hold_back + adj + j < end_ + 1 →
      (pySlice m.x adj ((end_ : ℤ) + 1 - (m.hold_back : ℤ)))[j]? =
        (assembleX m.detIn m.lags m.endog m.exogNames m.exogCols m.order
          m.fixedRows)[m.hold_back + adj + j]? := by
    intro adj j hlt
    simp only [pySlice]
    rw [List.getElem?_drop]
    have hstop : (if ((end_ : ℤ) + 1 - (m.hold_back : ℤ)) < 0 then
          max ((m.x.length : ℤ) + ((end_ : ℤ) + 1 - (m.hold_back : ℤ))) 0
        else min ((end_ : ℤ) + 1 - (m.hold_back : ℤ)) (m.x.length : ℤ)).toNat =
        end_ + 1 - m.hold_back := by
      rw [if_neg (by omega), min_def]
      split <;> omega
    rw [hstop]
    rw [List.getElem?_take_of_lt (by omega)]
    rw [hx, List.getElem?_drop]
    have harith : m.hold_back + (adj + j) = m.hold_back + adj + j := by omega
    rw [harith]
  intro i hi
  have hj : start + i < m.nobs := by omega
  have hreb := fxRebuild_insample_getElem m start i hfw hj
  have hmain : (fxShortcut m start end_).x[i]? =
      (fxRebuild m start 0 none none none none)[i]? := by
    by_cases hs : m.hold_back ≤ start
    · simp only [fxShortcut, padX, if_pos hs, List.replicate_zero,
        List.nil_append]
      rw [hslice (start - m.hold_back) i (by omega), hreb]
      have harith2 : m.hold_back + (start - m.hold_back) + i = start + i := by
        omega
      rw [harith2, if_neg (by omega)]
      exact assembleX_getElem m.detIn m.lags m.endog m.exogNames m.exogCols
        m.order m.fixedRows (start + i) hj
    · simp only [fxShortcut, padX, if_neg hs]
      by_cases hsmall : start + i < m.hold_back
      · rw [List.getElem?_append_left (by
          simp only [List.length_replicate]
          omega)]
        rw [List.getElem?_replicate_of_lt (by omega), hreb, if_pos hsmall]
      · rw [List.getElem?_append_right (by
          simp only [List.length_replicate]
          omega)]
        simp only [List.length_replicate]
        have hadj : start - m.hold_back = 0 := by omega
        rw [hadj]
        rw [hslice 0 (i - (m.hold_back - start)) (by omega), hreb]
        have harith3 : m.hold_back + 0 + (i - (m.hold_back - start)) =
            start + i := by omega
        rw [harith3, if_neg (by omega)]
        exact assembleX_getElem m.detIn m.lags m.endog m.exogNames m.exogCols
          m.order m.fixedRows (start + i) hj
  refine ⟨hmain, ?_⟩
  rw [List.getD_eq_getElem?_getD, List.getD_eq_getElem?_getD, hmain]

/-- Witness for C6 on the AR(1) scenario: requested row 1 of
`predict(start=1, end=3)` agrees between the two paths, as does its static
prediction. -/
theorem shortcut_rebuild_agree_witness :
    (fxShortcut c1model 1 3).x[1]? =
      (fxRebuild c1model 1 0 none none none none)[1]? ∧
    rowDot ((fxShortcut c1model 1 3).x.getD 1 []) [2] =
      rowDot ((fxRebuild c1model 1 0 none none none none).getD 1 []) [2] :=
  shortcut_rebuild_agree c1model 1 3 [2] (by decide) (by decide) (by decide)
    (by decide) 1 (by decide)
